import Mathlib

/-! ## Definitions: JavaScript string primitives and the three core operations -/

abbrev Str := List Char

/-- JavaScript `s.split('\n')`: always returns at least one (possibly empty)
piece; pieces contain no newline. -/
def splitOnNl : Str → List Str
  | [] => [[]]
  | c :: cs =>
    if c = '\n' then [] :: splitOnNl cs
    else
      match splitOnNl cs with
      | [] => [[c]]
      | l :: ls => (c :: l) :: ls

/-- JavaScript `lines.join('\n')`. -/
def joinNl : List Str → Str
  | [] => []
  | [l] => l
  | l :: ls => l ++ '\n' :: joinNl ls

/-- Whitespace characters removed by JavaScript `String.prototype.trim`
(the ASCII ones, which are the only ones relevant to CSS sources here). -/
def isJsSpace (c : Char) : Bool :=
  c == ' ' || c == '\t' || c == '\n' || c == '\r' || c == '\x0b' || c == '\x0c'

/-- JavaScript `line.trim()`. -/
def jsTrim (s : Str) : Str :=
  ((s.dropWhile isJsSpace).reverse.dropWhile isJsSpace).reverse

/-- JavaScript `s.includes(pat)` (substring containment). -/
def containsSub (pat : Str) : Str → Bool
  | [] => pat.isPrefixOf ([] : Str)
  | c :: cs => pat.isPrefixOf (c :: cs) || containsSub pat cs

/-- `(line.match(/{/g) || []).length - (line.match(/}/g) || []).length`:
the net brace balance contributed by one line. -/
def braceDelta (line : Str) : Int :=
  (line.count '\x7b' : Int) - (line.count '\x7d' : Int)

/-- Number of lines of a document, i.e. `split('\n').length`. -/
def lineCount (s : Str) : Nat := (splitOnNl s).length

structure ThemeBlock where
  type : Str
  startLine : Int
  endLine : Int
  content : Str
deriving Repr, DecidableEq

structure BlockScanState where
  inBlock : Bool
  blockType : Option Str
  blockStartLine : Int
  blockContent : List Str
  braceDepth : Int
  blocks : List ThemeBlock
deriving Repr, DecidableEq

/-- One iteration of the `extractThemeBlocks` loop body, translated from the
source: anchor detection (`!inBlock && line.trim().startsWith('@theme')`),
then the in-block accumulation and completion check. -/
def etbStep (st : BlockScanState) (lineNumber : Nat) (line : Str) : BlockScanState :=
  if ¬ st.inBlock ∧ ("@theme".data).isPrefixOf (jsTrim line) then
    { st with
      inBlock := true
      blockStartLine := (lineNumber : Int)
      blockContent := [line]
      blockType := if containsSub "inline".data line then some "theme inline".data
                   else some "theme".data
      braceDepth := braceDelta line }
  else if st.inBlock then
    let content := st.blockContent ++ [line]
    let d := st.braceDepth + braceDelta line
    if d = 0 ∧ content.length > 1 then
      { st with
        blocks := st.blocks ++
          [⟨st.blockType.getD [], st.blockStartLine, (lineNumber : Int), joinNl content⟩]
        inBlock := false
        blockType := none
        blockContent := []
        braceDepth := d }
    else { st with blockContent := content, braceDepth := d }
  else st

def etbLoop : List Str → Nat → BlockScanState → BlockScanState
  | [], _, st => st
  | line :: rest, lineNumber, st => etbLoop rest (lineNumber + 1) (etbStep st lineNumber line)

/-- `extractThemeBlocks(cssContent)` from the source. -/
def extractThemeBlocks (cssContent : Str) : List ThemeBlock :=
  (etbLoop (splitOnNl cssContent) 1 ⟨false, none, -1, [], 0, []⟩).blocks

structure SectionBlocks where
  theme : Int
  root : Int
  darkTheme : Int
  darkThemeEnd : Int
deriving Repr, DecidableEq

structure TokenSection where
  startLine : Int
  endLine : Int
  content : Str
  blocks : SectionBlocks
deriving Repr, DecidableEq

structure LocState where
  themeStartLine : Int
  rootStartLine : Int
  darkThemeStartLine : Int
  darkThemeEndLine : Int
  inBlock : Bool
  braceDepth : Int
  currentBlockType : Option Str
deriving Repr, DecidableEq

/-- One iteration of the `extractDesignTokenSection` loop body, translated
from the source.  The three anchor checks each end in `continue`, so they are
an if-chain; the `break` on the dark-theme close is modelled by setting
`darkThemeEndLine`, which the loop driver tests after every step. -/
def edtsStep (st : LocState) (lineNumber : Nat) (line : Str) : LocState :=
  let trimmedLine := jsTrim line
  if st.themeStartLine = -1 ∧ ("@theme".data).isPrefixOf trimmedLine ∧
      ¬ containsSub "inline".data trimmedLine then
    { st with
      themeStartLine := (lineNumber : Int)
      inBlock := true
      currentBlockType := some "theme".data
      braceDepth := braceDelta line }
  else if st.rootStartLine = -1 ∧ (":root".data).isPrefixOf trimmedLine then
    { st with
      rootStartLine := (lineNumber : Int)
      inBlock := true
      currentBlockType := some "root".data
      braceDepth := braceDelta line }
  else if (".dark-theme".data).isPrefixOf trimmedLine then
    { st with
      darkThemeStartLine := (lineNumber : Int)
      inBlock := true
      currentBlockType := some "dark-theme".data
      braceDepth := braceDelta line }
  else if st.inBlock then
    let d := st.braceDepth + braceDelta line
    if d = 0 then
      if st.currentBlockType = some "dark-theme".data then
        { st with braceDepth := d, darkThemeEndLine := (lineNumber : Int) }
      else { st with braceDepth := d, inBlock := false, currentBlockType := none }
    else { st with braceDepth := d }
  else st

def edtsLoop : List Str → Nat → LocState → LocState
  | [], _, st => st
  | line :: rest, lineNumber, st =>
    let st' := edtsStep st lineNumber line
    if st'.darkThemeEndLine = -1 then edtsLoop rest (lineNumber + 1) st'
    else st'

def edtsInit : LocState := ⟨-1, -1, -1, -1, false, 0, none⟩

/-- The part of `extractDesignTokenSection` after `split('\n')`: run the scan
over the line list, then validate and slice. -/
def edtsLines (lines : List Str) : Option TokenSection :=
  let st := edtsLoop lines 1 edtsInit
  if st.themeStartLine = -1 ∨ st.darkThemeEndLine = -1 then none
  else
    let sectionLines :=
      (lines.drop (st.themeStartLine - 1).toNat).take
        (st.darkThemeEndLine - (st.themeStartLine - 1)).toNat
    some
      { startLine := st.themeStartLine
        endLine := st.darkThemeEndLine
        content := joinNl sectionLines
        blocks :=
          { theme := st.themeStartLine
            root := st.rootStartLine
            darkTheme := st.darkThemeStartLine
            darkThemeEnd := st.darkThemeEndLine } }

/-- `extractDesignTokenSection(cssContent)` from the source. -/
def extractDesignTokenSection (cssContent : Str) : Option TokenSection :=
  edtsLines (splitOnNl cssContent)

inductive ReplaceError where
  | invalidRange (startLine endLine : Int) (totalLines : Nat)
deriving Repr, DecidableEq

/-- `replaceLines(originalContent, startLine, endLine, newContent)` from the
source; the thrown `Invalid line range` error becomes `Except.error`. -/
def replaceLines (originalContent : Str) (startLine endLine : Int)
    (newContent : Str) : Except ReplaceError Str :=
  let lines := splitOnNl originalContent
  if startLine < 1 ∨ endLine > (lines.length : Int) ∨ startLine > endLine then
    .error (.invalidRange startLine endLine lines.length)
  else
    let newLines := splitOnNl newContent
    let before := lines.take (startLine - 1).toNat
    let after := lines.drop endLine.toNat
    .ok (joinNl (before ++ newLines ++ after))

/-- The example document of spec §8 (11 lines). -/
def specExampleDoc : Str :=
  ("@theme \x7b\n  --color-red: #ff0000;\n\x7d\n.unrelated \x7b color: blue; \x7d\n:root \x7b\n  --bg: var(--color-red);\n\x7d\n.dark-theme \x7b\n  --bg: #000;\n\x7d\n.more-unrelated \x7b color: green; \x7d").data

/-- A document whose dark-theme block contains a nested line that also starts
with `.dark-theme` (line 4), after the first `.dark-theme` line (line 3). -/
def nestedDarkDoc : Str :=
  ("@theme \x7b\n\x7d\n.dark-theme \x7b\n  .dark-theme-inner \x7b\n\x7d\n\x7d").data

/-- A document with `@theme` and `.dark-theme` blocks but no `:root`. -/
def themeDarkDoc : Str := ("@theme \x7b\n\x7d\n.dark-theme \x7b\n\x7d").data

/-- A five-line document. -/
def fiveLineDoc : Str := ("a\nb\nc\nd\ne").data

def themeDarkSec : TokenSection := ⟨1, 4, themeDarkDoc, ⟨1, -1, 3, 4⟩⟩

/-! ## Theorems -/

theorem splitOnNl_ne_nil (s : Str) : splitOnNl s ≠ [] := by
  induction s with
  | nil => simp [splitOnNl]
  | cons c cs ih =>
    simp only [splitOnNl]
    split
    · simp
    · cases h : splitOnNl cs with
      | nil => simp
      | cons l ls => simp [h]

theorem joinNl_splitOnNl (s : Str) : joinNl (splitOnNl s) = s := by
  induction s with
  | nil => simp [splitOnNl, joinNl]
  | cons c cs ih =>
    simp only [splitOnNl]
    split
    · rename_i hc
      subst hc
      cases h : splitOnNl cs with
      | nil => exact absurd h (splitOnNl_ne_nil cs)
      | cons l ls =>
        rw [h] at ih
        simp only [joinNl]
        cases ls with
        | nil => simp [joinNl, ← ih]
        | cons l' ls' => simp [joinNl] at ih ⊢; exact ih
    · cases h : splitOnNl cs with
      | nil => exact absurd h (splitOnNl_ne_nil cs)
      | cons l ls =>
        rw [h] at ih
        cases ls with
        | nil => simp [joinNl] at ih ⊢; exact ih
        | cons l' ls' => simp [joinNl] at ih ⊢; exact ih

theorem not_mem_of_mem_splitOnNl (s : Str) :
    ∀ l ∈ splitOnNl s, '\n' ∉ l := by
  induction s with
  | nil => simp [splitOnNl]
  | cons c cs ih =>
    intro l hl
    simp only [splitOnNl] at hl
    by_cases hc : c = '\n'
    · rw [if_pos hc] at hl
      rcases List.mem_cons.mp hl with hl | hl
      · simp [hl]
      · exact ih l hl
    · rw [if_neg hc] at hl
      cases h : splitOnNl cs with
      | nil => exact absurd h (splitOnNl_ne_nil cs)
      | cons p ps =>
        rw [h] at hl
        rcases List.mem_cons.mp hl with hl | hl
        · subst hl
          intro hmem
          rcases List.mem_cons.mp hmem with h1 | h1
          · exact hc h1.symm
          · exact ih p (h ▸ List.mem_cons_self p ps) h1
        · exact ih l (h ▸ List.mem_cons_of_mem p hl)

theorem splitOnNl_of_no_nl (l : Str) (h : '\n' ∉ l) : splitOnNl l = [l] := by
  induction l with
  | nil => simp [splitOnNl]
  | cons c cs ih =>
    simp only [List.mem_cons, not_or] at h
    simp only [splitOnNl]
    rw [if_neg (fun hc => h.1 hc.symm)]
    rw [ih h.2]

theorem splitOnNl_append_nl (l t : Str) (h : '\n' ∉ l) :
    splitOnNl (l ++ '\n' :: t) = l :: splitOnNl t := by
  induction l with
  | nil => simp [splitOnNl]
  | cons c cs ih =>
    simp only [List.mem_cons, not_or] at h
    simp only [List.cons_append, splitOnNl, List.append_eq]
    rw [if_neg (fun hc => h.1 hc.symm), ih h.2]

theorem splitOnNl_joinNl (ls : List Str) (hne : ls ≠ [])
    (hnl : ∀ l ∈ ls, '\n' ∉ l) : splitOnNl (joinNl ls) = ls := by
  induction ls with
  | nil => exact absurd rfl hne
  | cons l ls ih =>
    cases ls with
    | nil =>
      simp only [joinNl]
      exact splitOnNl_of_no_nl l (hnl l (List.mem_cons_self l []))
    | cons l' ls' =>
      have hjoin : joinNl (l :: l' :: ls') = l ++ '\n' :: joinNl (l' :: ls') := rfl
      rw [hjoin, splitOnNl_append_nl l _ (hnl l (List.mem_cons_self _ _))]
      rw [ih (by simp) (fun x hx => hnl x (List.mem_cons_of_mem l hx))]

/-- C1 counterexample: on the §8 example document the located section ends at
line 10 (the `.dark-theme` closing brace is the 10th line of the 11-line
document), not at line 9 as the claim states. -/
theorem c1_counterexample :
    (extractDesignTokenSection specExampleDoc).map (fun s => s.endLine) = some 10 ∧
    (10 : Int) ≠ 9 := ⟨rfl, by decide⟩

/-- C1 amended: on the §8 example document `extractDesignTokenSection` returns
a section spanning line 1 through line 10 (the `.dark-theme` closing brace),
with the `.unrelated` rule included in the returned content, and
`replaceLines(document, 1, 10, "@theme\x7b\x7d")` yields the 2-line document
`@theme\x7b\x7d` followed by `.more-unrelated \x7b color: green; \x7d`. -/
theorem c1_amended_locate_replace :
    (extractDesignTokenSection specExampleDoc).map
      (fun s => (s.startLine, s.endLine)) = some (1, 10) ∧
    (extractDesignTokenSection specExampleDoc).map
      (fun s => containsSub ".unrelated \x7b color: blue; \x7d".data s.content) =
        some true ∧
    replaceLines specExampleDoc 1 10 "@theme\x7b\x7d".data =
      .ok ("@theme\x7b\x7d\n.more-unrelated \x7b color: green; \x7d").data :=
  ⟨rfl, rfl, rfl⟩

/-- C2 amended, general form: the `.dark-theme` anchor check of
`extractDesignTokenSection` is unguarded — a line whose trimmed text starts
with `.dark-theme` always (re)starts dark-theme tracking and records its own
line number as the dark-theme start, regardless of whether the scan is
already inside a tracked block. -/
theorem c2_amended_darkTheme_unguarded (st : LocState) (lineNumber : Nat)
    (line : Str)
    (h : (".dark-theme".data).isPrefixOf (jsTrim line) = true) :
    (edtsStep st lineNumber line).darkThemeStartLine = (lineNumber : Int) ∧
    (edtsStep st lineNumber line).inBlock = true := by
  obtain ⟨rest, htrim⟩ : ∃ rest, jsTrim line = '.' :: rest := by
    cases htrim : jsTrim line with
    | nil =>
      rw [htrim] at h
      simp [show (".dark-theme".data) = '.' :: "dark-theme".data from rfl,
        List.isPrefixOf] at h
    | cons c rest =>
      rw [htrim] at h
      simp only [show (".dark-theme".data) = '.' :: "dark-theme".data from rfl,
        List.isPrefixOf, Bool.and_eq_true, beq_iff_eq] at h
      exact ⟨rest, by rw [h.1]⟩
  rw [htrim] at h
  simp only [edtsStep, htrim]
  have hnotTheme : ¬ (("@theme".data).isPrefixOf ('.' :: rest) = true) := by
    simp only [show ("@theme".data) = '@' :: "theme".data from rfl,
      List.isPrefixOf, Bool.and_eq_true, beq_iff_eq]
    rintro ⟨h1, -⟩
    exact absurd h1 (by decide)
  have hnotRoot : ¬ ((":root".data).isPrefixOf ('.' :: rest) = true) := by
    simp only [show (":root".data) = ':' :: "root".data from rfl,
      List.isPrefixOf, Bool.and_eq_true, beq_iff_eq]
    rintro ⟨h1, -⟩
    exact absurd h1 (by decide)
  split
  · rename_i hcond
    exact absurd hcond.2.1 hnotTheme
  · split
    · rename_i hcond
      exact absurd hcond.2 hnotRoot
    · exact ⟨rfl, rfl⟩

theorem c2_amended_darkTheme_unguarded_witness :
    ((".dark-theme".data).isPrefixOf (jsTrim "  .dark-theme-inner \x7b".data) = true) ∧
    (edtsStep ⟨1, -1, 3, -1, true, 1, some "dark-theme".data⟩ 4
        "  .dark-theme-inner \x7b".data).darkThemeStartLine = 4 ∧
    (edtsStep ⟨1, -1, 3, -1, true, 1, some "dark-theme".data⟩ 4
        "  .dark-theme-inner \x7b".data).inBlock = true :=
  ⟨by decide,
   (c2_amended_darkTheme_unguarded _ 4 _ (by decide)).1,
   (c2_amended_darkTheme_unguarded _ 4 _ (by decide)).2⟩

/-- C2 counterexample: in `nestedDarkDoc` the first line starting with
`.dark-theme` is line 3, yet the recorded dark-theme start is line 4 — a
later `.dark-theme` line encountered while the dark-theme block opened on
line 3 was still open. -/
theorem c2_counterexample :
    (".dark-theme".data).isPrefixOf (jsTrim ".dark-theme \x7b".data) = true ∧
    (splitOnNl nestedDarkDoc)[2]? = some ".dark-theme \x7b".data ∧
    (extractDesignTokenSection nestedDarkDoc).map (fun s => s.blocks.darkTheme) =
      some 4 ∧
    (4 : Int) ≠ 3 :=
  ⟨by decide, rfl, rfl, by decide⟩

/-- C3 counterexample: `@theme \x7b \x7d` is an anchor line whose own brace
count balances to zero, yet no block is emitted at all when it is the last
line — the anchor line itself is never tested for completion (the source
`continue`s past it, and completion also requires more than one accumulated
line), so nothing closes "immediately". -/
theorem c3_counterexample :
    ("@theme".data).isPrefixOf (jsTrim "@theme \x7b \x7d".data) = true ∧
    braceDelta "@theme \x7b \x7d".data = 0 ∧
    extractThemeBlocks "@theme \x7b \x7d".data = [] :=
  ⟨by decide, by decide, rfl⟩

theorem etbStep_blockStart (st : BlockScanState) (n : Nat) (line : Str)
    (h : st.inBlock = true → st.blockStartLine < (n : Int)) :
    (etbStep st n line).inBlock = true →
      (etbStep st n line).blockStartLine < (n : Int) + 1 := by
  simp only [etbStep]
  split
  · intro _
    show (n : Int) < (n : Int) + 1
    omega
  · split
    · split
      · intro hb
        exact absurd hb (by simp)
      · intro hb
        exact lt_trans (h hb) (by omega)
    · intro hb
      exact lt_trans (h hb) (by omega)

theorem etbStep_blocks (st : BlockScanState) (n : Nat) (line : Str)
    (hstart : st.inBlock = true → st.blockStartLine < (n : Int))
    (hblocks : ∀ b ∈ st.blocks, b.startLine < b.endLine) :
    ∀ b ∈ (etbStep st n line).blocks, b.startLine < b.endLine := by
  simp only [etbStep]
  split
  · exact hblocks
  · split
    · split
      · rename_i hin hd
        intro b hb
        rcases List.mem_append.mp hb with hb | hb
        · exact hblocks b hb
        · rcases List.mem_singleton.mp hb with rfl
          exact hstart hin
      · exact fun b hb => hblocks b hb
    · exact fun b hb => hblocks b hb

theorem etbLoop_blocks (lines : List Str) : ∀ (n : Nat) (st : BlockScanState),
    (st.inBlock = true → st.blockStartLine < (n : Int)) →
    (∀ b ∈ st.blocks, b.startLine < b.endLine) →
    ∀ b ∈ (etbLoop lines n st).blocks, b.startLine < b.endLine := by
  induction lines with
  | nil =>
    intro n st _ hblocks
    simpa [etbLoop] using hblocks
  | cons line rest ih =>
    intro n st hstart hblocks
    simp only [etbLoop]
    refine ih (n + 1) _ ?_ (etbStep_blocks st n line hstart hblocks)
    intro hb
    have := etbStep_blockStart st n line hstart hb
    push_cast
    omega

/-- C3 amended: a one-line block does not immediately close — the block
completion test never runs on the anchor line itself and requires more than
one accumulated line, so every block emitted by `extractThemeBlocks` spans at
least two lines (`startLine < endLine`), and a balanced one-line block at the
end of the document is never emitted at all. -/
theorem c3_amended_blocks_span (css : Str) (b : ThemeBlock)
    (hb : b ∈ extractThemeBlocks css) : b.startLine < b.endLine :=
  etbLoop_blocks (splitOnNl css) 1 ⟨false, none, -1, [], 0, []⟩
    (by intro h; exact absurd h (by simp)) (by simp) b hb

theorem c3_amended_blocks_span_witness :
    (⟨"theme".data, 1, 2, "@theme \x7b \x7d\nx".data⟩ : ThemeBlock) ∈
      extractThemeBlocks "@theme \x7b \x7d\nx".data ∧
    ((⟨"theme".data, 1, 2, "@theme \x7b \x7d\nx".data⟩ : ThemeBlock).startLine <
      (⟨"theme".data, 1, 2, "@theme \x7b \x7d\nx".data⟩ : ThemeBlock).endLine) :=
  ⟨by decide, c3_amended_blocks_span "@theme \x7b \x7d\nx".data _ (by decide)⟩

/-- C4: `extractDesignTokenSection` returns the not-found signal exactly when
the scan ends with the `@theme` start sentinel or the `.dark-theme` end
sentinel still `-1` (non-inline `@theme` never found, or `.dark-theme` never
found / never closes); a document with only `:root` yields `none`; and when
`@theme` and the `.dark-theme` end are found but `:root` is absent, a section
is still returned with the `-1` sentinel for the missing `:root`. -/
theorem c4_notFound_iff :
    (∀ css : Str, extractDesignTokenSection css = none ↔
      ((edtsLoop (splitOnNl css) 1 edtsInit).themeStartLine = -1 ∨
       (edtsLoop (splitOnNl css) 1 edtsInit).darkThemeEndLine = -1)) ∧
    extractDesignTokenSection (":root \x7b --a: 1; \x7d").data = none ∧
    (∃ s, extractDesignTokenSection themeDarkDoc = some s ∧
      s.blocks.root = -1 ∧ s.blocks.theme = 1 ∧ s.blocks.darkTheme = 3 ∧
      s.blocks.darkThemeEnd = 4) := by
  refine ⟨fun css => ?_, rfl, ⟨_, rfl, rfl, rfl, rfl, rfl⟩⟩
  simp only [extractDesignTokenSection, edtsLines]
  split
  · rename_i hcond
    exact iff_of_true rfl hcond
  · rename_i hcond
    exact iff_of_false (by simp) hcond

theorem edtsStep_darkEnd (st : LocState) (n : Nat) (line : Str)
    (h : st.darkThemeEndLine = -1) :
    (edtsStep st n line).darkThemeEndLine = -1 ∨
      ((edtsStep st n line).darkThemeEndLine = (n : Int) ∧
       (edtsStep st n line).themeStartLine = st.themeStartLine) := by
  simp only [edtsStep]
  split
  · exact Or.inl h
  · split
    · exact Or.inl h
    · split
      · exact Or.inl h
      · split
        · split
          · split
            · exact Or.inr ⟨rfl, rfl⟩
            · exact Or.inl h
          · exact Or.inl h
        · exact Or.inl h

theorem edtsStep_themeStart (st : LocState) (n : Nat) (line : Str) :
    (edtsStep st n line).themeStartLine = st.themeStartLine ∨
      (edtsStep st n line).themeStartLine = (n : Int) := by
  simp only [edtsStep]
  split
  · exact Or.inr rfl
  · split
    · exact Or.inl rfl
    · split
      · exact Or.inl rfl
      · split
        · split
          · split
            · exact Or.inl rfl
            · exact Or.inl rfl
          · exact Or.inl rfl
        · exact Or.inl rfl

theorem edtsLoop_bounds (lines : List Str) : ∀ (n : Nat) (st : LocState),
    1 ≤ n →
    st.darkThemeEndLine = -1 →
    (st.themeStartLine = -1 ∨
      (1 ≤ st.themeStartLine ∧ st.themeStartLine < (n : Int))) →
    (edtsLoop lines n st).darkThemeEndLine ≠ -1 →
    ((edtsLoop lines n st).themeStartLine = -1 ∨
      (1 ≤ (edtsLoop lines n st).themeStartLine ∧
       (edtsLoop lines n st).themeStartLine < (edtsLoop lines n st).darkThemeEndLine)) ∧
    (n : Int) ≤ (edtsLoop lines n st).darkThemeEndLine ∧
    (edtsLoop lines n st).darkThemeEndLine ≤ (n : Int) + lines.length - 1 := by
  induction lines with
  | nil =>
    intro n st _ hEnd _ hne
    exact absurd hEnd hne
  | cons line rest ih =>
    intro n st hn hEnd hts hne
    simp only [edtsLoop] at hne ⊢
    by_cases hd : (edtsStep st n line).darkThemeEndLine = -1
    · rw [if_pos hd] at hne ⊢
      have hts' : (edtsStep st n line).themeStartLine = -1 ∨
          (1 ≤ (edtsStep st n line).themeStartLine ∧
           (edtsStep st n line).themeStartLine < ((n + 1 : Nat) : Int)) := by
        rcases edtsStep_themeStart st n line with h2 | h2
        · rw [h2]
          rcases hts with h3 | h3
          · exact Or.inl h3
          · refine Or.inr ⟨h3.1, ?_⟩
            push_cast
            omega
        · rw [h2]
          refine Or.inr ⟨by exact_mod_cast hn, by push_cast; omega⟩
      obtain ⟨ha, hb, hc⟩ := ih (n + 1) (edtsStep st n line) (by omega) hd hts' hne
      refine ⟨ha, by push_cast at hb ⊢; omega, ?_⟩
      simp only [List.length_cons]
      push_cast at hc ⊢
      omega
    · rw [if_neg hd] at hne ⊢
      rcases edtsStep_darkEnd st n line hEnd with h2 | h2
      · exact absurd h2 hd
      · obtain ⟨h2e, h2t⟩ := h2
        refine ⟨?_, by omega, ?_⟩
        · rw [h2t, h2e]
          rcases hts with h3 | h3
          · exact Or.inl h3
          · exact Or.inr h3
        · rw [h2e]
          simp only [List.length_cons]
          push_cast
          omega

theorem edtsLoop_append (lines : List Str) : ∀ (extra : List Str) (n : Nat)
    (st : LocState), st.darkThemeEndLine = -1 →
    (edtsLoop lines n st).darkThemeEndLine ≠ -1 →
    edtsLoop (lines ++ extra) n st = edtsLoop lines n st := by
  induction lines with
  | nil =>
    intro extra n st hEnd hne
    exact absurd hEnd hne
  | cons line rest ih =>
    intro extra n st hEnd hne
    simp only [List.cons_append, edtsLoop, List.append_eq] at hne ⊢
    by_cases hd : (edtsStep st n line).darkThemeEndLine = -1
    · rw [if_pos hd] at hne
      rw [if_pos hd, if_pos hd]
      exact ih extra (n + 1) _ hd hne
    · rw [if_neg hd, if_neg hd]

theorem edtsLines_some (lines : List Str) (s : TokenSection)
    (h : edtsLines lines = some s) :
    (edtsLoop lines 1 edtsInit).themeStartLine ≠ -1 ∧
    (edtsLoop lines 1 edtsInit).darkThemeEndLine ≠ -1 ∧
    s.startLine = (edtsLoop lines 1 edtsInit).themeStartLine ∧
    s.endLine = (edtsLoop lines 1 edtsInit).darkThemeEndLine ∧
    s.content = joinNl ((lines.drop (s.startLine - 1).toNat).take
      (s.endLine - (s.startLine - 1)).toNat) := by
  simp only [edtsLines] at h
  split at h
  · exact absurd h (by simp)
  · rename_i hcond
    push_neg at hcond
    have hs := Option.some.inj h
    subst hs
    exact ⟨hcond.1, hcond.2, rfl, rfl, rfl⟩

/-- C9: every section returned by `extractDesignTokenSection` satisfies
`1 ≤ startLine < endLine ≤ lineCount`, so the returned pair always passes
the validated precondition of `replaceLines` on the same document. -/
theorem c9_section_bounds (css : Str) (s : TokenSection)
    (h : extractDesignTokenSection css = some s) :
    1 ≤ s.startLine ∧ s.startLine < s.endLine ∧
    s.endLine ≤ (lineCount css : Int) ∧
    ∀ X : Str, ∃ out, replaceLines css s.startLine s.endLine X = .ok out := by
  obtain ⟨h1, h2, hstart, hend, -⟩ := edtsLines_some (splitOnNl css) s h
  obtain ⟨ha, hb, hc⟩ :=
    edtsLoop_bounds (splitOnNl css) 1 edtsInit (le_refl 1) rfl (Or.inl rfl) h2
  rcases ha with ha | ha
  · exact absurd ha h1
  have hlen : lineCount css = (splitOnNl css).length := rfl
  have hb1 : 1 ≤ s.startLine := by rw [hstart]; exact ha.1
  have hb2 : s.startLine < s.endLine := by rw [hstart, hend]; exact ha.2
  have hb3 : s.endLine ≤ (lineCount css : Int) := by
    rw [hend]
    push_cast at hc ⊢
    omega
  refine ⟨hb1, hb2, hb3, fun X => ?_⟩
  simp only [replaceLines]
  rw [if_neg (by omega)]
  exact ⟨_, rfl⟩

theorem c9_section_bounds_witness :
    1 ≤ themeDarkSec.startLine ∧
    themeDarkSec.startLine < themeDarkSec.endLine ∧
    themeDarkSec.endLine ≤ (lineCount themeDarkDoc : Int) ∧
    ∃ out, replaceLines themeDarkDoc themeDarkSec.startLine themeDarkSec.endLine
      "x".data = .ok out :=
  ⟨(c9_section_bounds themeDarkDoc themeDarkSec rfl).1,
   (c9_section_bounds themeDarkDoc themeDarkSec rfl).2.1,
   (c9_section_bounds themeDarkDoc themeDarkSec rfl).2.2.1,
   (c9_section_bounds themeDarkDoc themeDarkSec rfl).2.2.2 "x".data⟩

/-- C5: the scan stops at the line where the `.dark-theme` block's brace
depth returns to zero: a located section is unchanged under appending
further lines to the document, and its content is computed from the first
`endLine` lines only — no line after the dark-theme closing line is ever
included. -/
theorem c5_early_termination (lines extra : List Str) (s : TokenSection)
    (h : edtsLines lines = some s) :
    edtsLines (lines ++ extra) = some s ∧
    s.content =
      joinNl ((lines.take s.endLine.toNat).drop (s.startLine.toNat - 1)) := by
  obtain ⟨h1, h2, hstart, hend, hcontent⟩ := edtsLines_some lines s h
  obtain ⟨ha, hb, hc⟩ :=
    edtsLoop_bounds lines 1 edtsInit (le_refl 1) rfl (Or.inl rfl) h2
  rcases ha with ha | ha
  · exact absurd ha h1
  have hb1 : 1 ≤ s.startLine := by rw [hstart]; exact ha.1
  have hb2 : s.startLine < s.endLine := by rw [hstart, hend]; exact ha.2
  have hb3 : s.endLine ≤ (lines.length : Int) := by
    rw [hend]
    push_cast at hc ⊢
    omega
  constructor
  · have happ := edtsLoop_append lines extra 1 edtsInit rfl h2
    have hsl : (lines ++ extra).drop
        ((edtsLoop lines 1 edtsInit).themeStartLine - 1).toNat =
        lines.drop ((edtsLoop lines 1 edtsInit).themeStartLine - 1).toNat
          ++ extra :=
      List.drop_append_of_le_length (by rw [← hstart]; omega)
    have hsl2 : (lines.drop
          ((edtsLoop lines 1 edtsInit).themeStartLine - 1).toNat ++ extra).take
        ((edtsLoop lines 1 edtsInit).darkThemeEndLine -
          ((edtsLoop lines 1 edtsInit).themeStartLine - 1)).toNat =
        (lines.drop ((edtsLoop lines 1 edtsInit).themeStartLine - 1).toNat).take
        ((edtsLoop lines 1 edtsInit).darkThemeEndLine -
          ((edtsLoop lines 1 edtsInit).themeStartLine - 1)).toNat :=
      List.take_append_of_le_length
        (by rw [List.length_drop, ← hstart, ← hend]; omega)
    rw [← h]
    simp only [edtsLines, happ, hsl, hsl2]
  · rw [hcontent]
    have e1 : (s.startLine - 1).toNat = s.startLine.toNat - 1 := by omega
    have e2 : (s.endLine - (s.startLine - 1)).toNat =
        s.endLine.toNat - (s.startLine.toNat - 1) := by omega
    rw [List.drop_take, e1, e2]

theorem c5_early_termination_witness :
    edtsLines (splitOnNl themeDarkDoc ++ ["junk".data]) = some themeDarkSec ∧
    themeDarkSec.content =
      joinNl (((splitOnNl themeDarkDoc).take themeDarkSec.endLine.toNat).drop
        (themeDarkSec.startLine.toNat - 1)) :=
  ⟨(c5_early_termination (splitOnNl themeDarkDoc) ["junk".data] themeDarkSec rfl).1,
   (c5_early_termination (splitOnNl themeDarkDoc) ["junk".data] themeDarkSec rfl).2⟩

theorem replaceLines_ok (D X : Str) (s e : Nat)
    (h1 : 1 ≤ s) (h2 : s ≤ e) (h3 : e ≤ lineCount D) :
    replaceLines D (s : Int) (e : Int) X =
      .ok (joinNl ((splitOnNl D).take (s - 1) ++ splitOnNl X ++
        (splitOnNl D).drop e)) := by
  have hlen : lineCount D = (splitOnNl D).length := rfl
  simp only [replaceLines]
  rw [if_neg (by omega)]
  have e1 : ((s : Int) - 1).toNat = s - 1 := by omega
  have e2 : ((e : Int)).toNat = e := by omega
  rw [e1, e2]

theorem splitOnNl_spliced (D X : Str) (s e : Nat) :
    splitOnNl (joinNl ((splitOnNl D).take (s - 1) ++ splitOnNl X ++
        (splitOnNl D).drop e)) =
      (splitOnNl D).take (s - 1) ++ splitOnNl X ++ (splitOnNl D).drop e := by
  apply splitOnNl_joinNl
  · intro hc
    rcases List.append_eq_nil.mp hc with ⟨hc1, -⟩
    rcases List.append_eq_nil.mp hc1 with ⟨-, hc2⟩
    exact splitOnNl_ne_nil X hc2
  · intro l hl
    rcases List.mem_append.mp hl with hl | hl
    · rcases List.mem_append.mp hl with hl | hl
      · exact not_mem_of_mem_splitOnNl D l (List.take_subset _ _ hl)
      · exact not_mem_of_mem_splitOnNl X l hl
    · exact not_mem_of_mem_splitOnNl D l (List.drop_subset _ _ hl)

/-- C6: `replaceLines(D, s, e, X)` fails with the `InvalidRange` error
carrying the offending bounds and the total line count exactly when
`s < 1`, `e > lineCount(D)` or `s > e`; in particular, on any document of at
least 5 lines both `replaceLines(D, 5, 3, "x")` and
`replaceLines(D, 0, 1, "x")` fail. -/
theorem c6_invalidRange_iff :
    (∀ (D X : Str) (s e : Int),
      replaceLines D s e X = .error (.invalidRange s e (lineCount D)) ↔
        (s < 1 ∨ e > (lineCount D : Int) ∨ s > e)) ∧
    (∀ D : Str, 5 ≤ lineCount D →
      (∃ err, replaceLines D 5 3 "x".data = .error err) ∧
      (∃ err, replaceLines D 0 1 "x".data = .error err)) := by
  have hmain : ∀ (D X : Str) (s e : Int),
      replaceLines D s e X = .error (.invalidRange s e (lineCount D)) ↔
        (s < 1 ∨ e > (lineCount D : Int) ∨ s > e) := by
    intro D X s e
    simp only [replaceLines]
    split
    · rename_i hcond
      exact iff_of_true rfl hcond
    · rename_i hcond
      exact iff_of_false (by simp) hcond
  refine ⟨hmain, fun D hD => ?_⟩
  refine ⟨⟨_, (hmain D "x".data 5 3).mpr ?_⟩, ⟨_, (hmain D "x".data 0 1).mpr ?_⟩⟩
  · right; right; omega
  · left; omega

theorem c6_invalidRange_iff_witness :
    5 ≤ lineCount fiveLineDoc ∧
    (∃ err, replaceLines fiveLineDoc 5 3 "x".data = .error err) ∧
    (∃ err, replaceLines fiveLineDoc 0 1 "x".data = .error err) :=
  ⟨by decide, (c6_invalidRange_iff.2 fiveLineDoc (by decide)).1,
    (c6_invalidRange_iff.2 fiveLineDoc (by decide)).2⟩

/-- C7: for a valid range, the splice keeps the first `s-1` lines and the
last `lineCount(D) - e` lines of `D` unchanged and in order, and the output
line count is `lineCount(D) - (e - s + 1) + lineCount(X)`. -/
theorem c7_replaceLines_frame (D X : Str) (s e : Nat)
    (h1 : 1 ≤ s) (h2 : s ≤ e) (h3 : e ≤ lineCount D) :
    ∃ out, replaceLines D (s : Int) (e : Int) X = .ok out ∧
      (splitOnNl out).take (s - 1) = (splitOnNl D).take (s - 1) ∧
      (splitOnNl out).drop ((s - 1) + lineCount X) = (splitOnNl D).drop e ∧
      lineCount out = lineCount D - (e - s + 1) + lineCount X := by
  have hlen : lineCount D = (splitOnNl D).length := rfl
  have hA : ((splitOnNl D).take (s - 1)).length = s - 1 := by
    rw [List.length_take]
    omega
  refine ⟨_, replaceLines_ok D X s e h1 h2 h3, ?_, ?_, ?_⟩
  · rw [splitOnNl_spliced D X s e, List.append_assoc]
    rw [List.take_left' hA]
  · rw [splitOnNl_spliced D X s e]
    refine List.drop_left' ?_
    rw [List.length_append, hA]
    rfl
  · show (splitOnNl _).length = _
    rw [splitOnNl_spliced D X s e]
    simp only [List.length_append, List.length_take, List.length_drop]
    have hX : (splitOnNl X).length = lineCount X := rfl
    omega

theorem c7_replaceLines_frame_witness :
    1 ≤ 2 ∧ 2 ≤ 4 ∧ 4 ≤ lineCount fiveLineDoc ∧
    ∃ out, replaceLines fiveLineDoc ((2 : Nat) : Int) ((4 : Nat) : Int)
        "p\nq".data = .ok out ∧
      (splitOnNl out).take (2 - 1) = (splitOnNl fiveLineDoc).take (2 - 1) ∧
      (splitOnNl out).drop ((2 - 1) + lineCount "p\nq".data) =
        (splitOnNl fiveLineDoc).drop 4 ∧
      lineCount out = lineCount fiveLineDoc - (4 - 2 + 1) + lineCount "p\nq".data :=
  ⟨by decide, by decide, by decide,
    c7_replaceLines_frame fiveLineDoc "p\nq".data 2 4 (by decide) (by decide)
      (by decide)⟩

/-- C8: replacing lines `s..e` with the newline-joined text of exactly those
lines reproduces the document. -/
theorem c8_replaceLines_roundTrip (D : Str) (s e : Nat)
    (h1 : 1 ≤ s) (h2 : s ≤ e) (h3 : e ≤ lineCount D) :
    replaceLines D (s : Int) (e : Int)
      (joinNl (((splitOnNl D).drop (s - 1)).take (e - s + 1))) = .ok D := by
  have hlen : lineCount D = (splitOnNl D).length := rfl
  rw [replaceLines_ok D _ s e h1 h2 h3]
  have hslice_nl : ∀ l ∈ ((splitOnNl D).drop (s - 1)).take (e - s + 1),
      '\n' ∉ l := fun l hl =>
    not_mem_of_mem_splitOnNl D l (List.drop_subset _ _ (List.take_subset _ _ hl))
  have hslice_ne : ((splitOnNl D).drop (s - 1)).take (e - s + 1) ≠ [] := by
    intro hc
    have := congrArg List.length hc
    rw [List.length_take, List.length_drop] at this
    simp only [List.length_nil] at this
    omega
  rw [splitOnNl_joinNl _ hslice_ne hslice_nl]
  have hC : ((splitOnNl D).drop (s - 1)).drop (e - s + 1) = (splitOnNl D).drop e := by
    rw [List.drop_drop]
    congr 1
    omega
  rw [List.append_assoc, ← hC, List.take_append_drop, List.take_append_drop,
    joinNl_splitOnNl]

theorem c8_replaceLines_roundTrip_witness :
    1 ≤ 2 ∧ 2 ≤ 4 ∧ 4 ≤ lineCount fiveLineDoc ∧
    replaceLines fiveLineDoc ((2 : Nat) : Int) ((4 : Nat) : Int)
      (joinNl (((splitOnNl fiveLineDoc).drop (2 - 1)).take (4 - 2 + 1))) =
      .ok fiveLineDoc :=
  ⟨by decide, by decide, by decide,
    c8_replaceLines_roundTrip fiveLineDoc 2 4 (by decide) (by decide) (by decide)⟩

/-- C10: with the empty string as replacement, the range is not deleted
outright — the empty replacement contributes exactly one empty line, so the
output has `lineCount(D) - (e - s + 1) + 1` lines with an empty line at
position `s`. -/
theorem c10_empty_replacement (D : Str) (s e : Nat)
    (h1 : 1 ≤ s) (h2 : s ≤ e) (h3 : e ≤ lineCount D) :
    ∃ out, replaceLines D (s : Int) (e : Int) ([] : Str) = .ok out ∧
      lineCount out = lineCount D - (e - s + 1) + 1 ∧
      (splitOnNl out)[s - 1]? = some ([] : Str) := by
  have hlen : lineCount D = (splitOnNl D).length := rfl
  have hA : ((splitOnNl D).take (s - 1)).length = s - 1 := by
    rw [List.length_take]
    omega
  refine ⟨_, replaceLines_ok D [] s e h1 h2 h3, ?_, ?_⟩
  · show (splitOnNl _).length = _
    rw [splitOnNl_spliced D [] s e]
    simp only [List.length_append, List.length_take, List.length_drop]
    have hX : (splitOnNl ([] : Str)).length = 1 := rfl
    omega
  · rw [splitOnNl_spliced D [] s e, List.append_assoc]
    rw [List.getElem?_append_right (le_of_eq hA), hA, Nat.sub_self]
    simp [splitOnNl]

theorem c10_empty_replacement_witness :
    1 ≤ 2 ∧ 2 ≤ 3 ∧ 3 ≤ lineCount fiveLineDoc ∧
    ∃ out, replaceLines fiveLineDoc ((2 : Nat) : Int) ((3 : Nat) : Int)
        ([] : Str) = .ok out ∧
      lineCount out = lineCount fiveLineDoc - (3 - 2 + 1) + 1 ∧
      (splitOnNl out)[2 - 1]? = some ([] : Str) :=
  ⟨by decide, by decide, by decide,
    c10_empty_replacement fiveLineDoc 2 3 (by decide) (by decide) (by decide)⟩
